import Mathlib

/-!
Verification of the silentscan scan-and-report pipeline.

The Lean definitions below are a shallow embedding of the Python sources
`src/silentscan/scanner.py` and `src/silentscan/report.py`.

Modelling conventions:
  * Filesystem paths are plain `String`s, assumed to be normalised POSIX
    paths (no trailing slash, no repeated slashes), which is the form in
    which the scanner itself produces them (`dirpath ++ "/" ++ filename`).
  * Audio sample values and durations are modelled as rationals (decoded
    floating-point samples are finite-precision, hence rational); the
    decibel threshold and its linear amplitude `10^(db/20)` live in `ℝ`.
  * Python `try/except` around an external call is modelled by giving the
    external call an `Option` result: `none` stands for the call raising.
  * The external `json` library (`json.dump`/`json.load`) is modelled as
    storing the parsed JSON tree itself: a file either holds a JSON tree
    (`FileData.jsonData v`, the text renders/parses to `v`) or text that
    is not valid JSON (`FileData.rawData s`).
-/

namespace SilentScan

open List (Perm)
open scoped List

/-- One flagged file, as built by the scanner
(`{'path': ..., 'size_bytes': ..., 'duration_seconds': ...}`). -/
structure SilentFileRecord where
  path : String
  size_bytes : Nat
  duration_seconds : Option ℚ
deriving DecidableEq, Repr

/-- One session group, as built by `report.group_by_session`. -/
structure SessionGroup where
  session_path : String
  silent_file_count : Nat
  silent_files : List SilentFileRecord
deriving DecidableEq, Repr

/-- The report dict built by `report.build_report`. -/
structure ScanReport where
  scanned_at : String
  root_path : String
  threshold_db : ℚ
  scan_duration_seconds : ℚ
  total_files_scanned : Nat
  total_silent_files : Nat
  total_silent_size_bytes : Nat
  sessions : List SessionGroup
deriving DecidableEq, Repr

/-- Split a character list on `'/'`, like Python `str.split("/")`:
`"" ↦ [""]`, `"/a" ↦ ["", "a"]`, `"a/b" ↦ ["a", "b"]`. -/
def splitSlash : List Char → List (List Char)
  | [] => [[]]
  | c :: cs =>
    let r := splitSlash cs
    if c = '/' then [] :: r
    else
      match r with
      | [] => [[c]]
      | g :: gs => (c :: g) :: gs

/-- `str(pathlib.Path(p).parent)` for a normalised POSIX path `p`:
drop the final path component; `"a" ↦ "."`, `"/a" ↦ "/"`. -/
def parentDir (p : String) : String :=
  match (splitSlash p.data).dropLast with
  | [] => "."
  | [[]] => "/"
  | comps => String.intercalate "/" (comps.map fun cs => String.mk cs)

/-- One step of the dict-building loop in `report.group_by_session`:
`if session_path not in sessions: sessions[session_path] = []` followed by
`sessions[session_path].append(file)`.  A Python dict preserving insertion
order is modelled as an association list with distinct keys. -/
def insertRecord (acc : List (String × List SilentFileRecord)) (key : String)
    (r : SilentFileRecord) : List (String × List SilentFileRecord) :=
  match acc with
  | [] => [(key, [r])]
  | (k, fs) :: rest =>
    if k = key then (k, fs ++ [r]) :: rest else (k, fs) :: insertRecord rest key r

/-- The `sessions` dict of `report.group_by_session` after the `for` loop. -/
def collectSessions (silent_files : List SilentFileRecord) :
    List (String × List SilentFileRecord) :=
  silent_files.foldl (fun acc f => insertRecord acc (parentDir f.path) f) []

/-- Key order used by `sorted(sessions.items())`.  Python compares the
`(key, value)` tuples componentwise, but the dict keys are pairwise
distinct, so the comparison never reaches the (incomparable) values and
the sort is exactly a sort by key. -/
def pairLe (a b : String × List SilentFileRecord) : Prop := a.1 ≤ b.1

instance : DecidableRel pairLe := fun a b => inferInstanceAs (Decidable (a.1 ≤ b.1))

instance : IsTotal (String × List SilentFileRecord) pairLe := ⟨fun a b => le_total a.1 b.1⟩

instance : IsTrans (String × List SilentFileRecord) pairLe := ⟨fun _ _ _ => le_trans⟩

/-- `report.group_by_session(silent_files, root)`.  Note that the source
function accepts `root` but never uses it: the session key is the file's
full parent directory, not a path relative to `root`. -/
def group_by_session (silent_files : List SilentFileRecord) (_root : String) :
    List SessionGroup :=
  (List.insertionSort pairLe (collectSessions silent_files)).map fun kv =>
    { session_path := kv.1
      silent_file_count := kv.2.length
      silent_files := kv.2 }

/-- Python `round(x, 2)` on a rational: nearest multiple of `1/100`,
ties to even (the float-representation error of CPython's `round` is
outside this model). -/
def pyRound2 (q : ℚ) : ℚ :=
  let scaled := q * 100
  let f : ℤ := ⌊scaled⌋
  let frac := scaled - f
  let n : ℤ :=
    if frac < 1 / 2 then f
    else if 1 / 2 < frac then f + 1
    else if f % 2 = 0 then f else f + 1
  (n : ℚ) / 100

/-- `report.build_report`.  The call `datetime.now(timezone.utc).isoformat()`
is impure; its result is passed in as the explicit argument `now`. -/
def build_report (root : String) (silent_files : List SilentFileRecord)
    (total_scanned : Nat) (threshold_db : ℚ) (duration_seconds : ℚ)
    (now : String) : ScanReport :=
  { scanned_at := now
    root_path := root
    threshold_db := threshold_db
    scan_duration_seconds := pyRound2 duration_seconds
    total_files_scanned := total_scanned
    total_silent_files := silent_files.length
    total_silent_size_bytes := (silent_files.map fun f => f.size_bytes).sum
    sessions := group_by_session silent_files root }

/-! ### Scanner embedding (`scanner.py`) -/

/-- Outcome of the external per-file probes (`sf.read`, `stat`, `sf.info`)
for one path.  A `none` field models the corresponding library call
raising.  `decoded` is the `always_2d` sample matrix (frames × channels). -/
structure FileInfo where
  decoded : Option (List (List ℚ))
  size_bytes : Option Nat
  infoDuration : Option ℚ

/-- `SUPPORTED_EXTENSIONS` from `scanner.py`. -/
def SUPPORTED_EXTENSIONS : List String := [".wav", ".aiff", ".aif"]

/-- `DEFAULT_SILENCE_THRESHOLD_DB` from `scanner.py`. -/
def DEFAULT_SILENCE_THRESHOLD_DB : ℝ := -60

/-- `db_to_amplitude(db) = 10 ** (db / 20)` from `scanner.py`. -/
noncomputable def db_to_amplitude (db : ℝ) : ℝ := Real.rpow 10 (db / 20)

/-- `np.max(np.abs(data))`: `none` models the `ValueError` numpy raises on
a zero-size array (a decodable file with no frames). -/
def npMaxAbs (data : List (List ℚ)) : Option ℚ :=
  match (data.flatMap id).map (fun x => |x|) with
  | [] => none
  | x :: xs => some (xs.foldl max x)

/-- `is_silent(file_path, threshold_db)` from `scanner.py`, over the decode
outcome recorded in `env`.  Any exception inside the `try` block — decode
failure (`decoded = none`) or the empty-array `ValueError` from `np.max`
(`npMaxAbs data = none`) — is swallowed by the bare `except` and yields
`false`. -/
noncomputable def is_silent (env : String → FileInfo) (file_path : String)
    (threshold_db : ℝ) : Bool :=
  match (env file_path).decoded with
  | none => false
  | some data =>
    match npMaxAbs data with
    | none => false
    | some peak => if (peak : ℝ) < db_to_amplitude threshold_db then true else false

/-- `get_duration(file_path)` from `scanner.py`: `sf.info(...).duration`
with the exception absorbed into `none` (the outcome is recorded in
`FileInfo.infoDuration`). -/
def get_duration (env : String → FileInfo) (file_path : String) : Option ℚ :=
  (env file_path).infoDuration

/-- ASCII lower-casing of one character; Python `str.lower` restricted to
ASCII, which covers the extension strings being compared against. -/
def lowerChar (c : Char) : Char :=
  if 'A' ≤ c ∧ c ≤ 'Z' then Char.ofNat (c.toNat + 32) else c

/-- `str.lower` on a file extension. -/
def lowerString (s : String) : String := String.mk (s.data.map lowerChar)

/-- `pathlib.Path(name).suffix` for a bare file name (no separators): the
slice of the name from its last dot, unless that dot is the first or the
last character. -/
def pySuffix (name : String) : String :=
  let cs := name.data
  match ((List.range cs.length).filter fun i => cs.getD i ' ' = '.').getLast? with
  | none => ""
  | some i => if 0 < i ∧ i + 1 < cs.length then String.mk (cs.drop i) else ""

/-- The candidate list `all_files` built in `scan_directory`; the output of
`os.walk(root)` is modelled by its list of `(dirpath, filenames)` pairs. -/
def all_files (walk : List (String × List String)) : List String :=
  walk.flatMap fun d =>
    (d.2.filter fun fn => SUPPORTED_EXTENSIONS.contains (lowerString (pySuffix fn))).map
      fun fn => d.1 ++ "/" ++ fn

/-- `total = len(all_files)` in `scan_directory`. -/
def scanTotal (walk : List (String × List String)) : Nat := (all_files walk).length

/-- Observable per-candidate events of one scan, in source order: the
invocation of the `on_progress` callback, and the classification decision
made by the `is_silent` call. -/
inductive ScanEvent where
  | progressCall (index : Nat) (total : Nat) (path : String)
  | classified (path : String) (silent : Bool)
deriving DecidableEq, Repr

/-- The `for index, file_path in enumerate(all_files, start=1)` loop of
`scan_directory`, from index `idx` on.  The first component models the
Python return value, or — as `Except.error p` — the uncaught `OSError` of
`file_path.stat()` for the silent file `p` (that call sits outside any
`try`); the second component is the event trace.  `on_progress` says
whether a callback was supplied (`if on_progress:`). -/
noncomputable def scanFrom (env : String → FileInfo) (threshold_db : ℝ) (total : Nat)
    (on_progress : Bool) :
    Nat → List String → Except String (List SilentFileRecord) × List ScanEvent
  | _, [] => (Except.ok [], [])
  | idx, p :: rest =>
    let pre : List ScanEvent :=
      if on_progress then [ScanEvent.progressCall idx total p] else []
    let b := is_silent env p threshold_db
    if b then
      match (env p).size_bytes with
      | none => (Except.error p, pre ++ [ScanEvent.classified p b])
      | some sz =>
        let r : SilentFileRecord :=
          { path := p, size_bytes := sz, duration_seconds := get_duration env p }
        let out := scanFrom env threshold_db total on_progress (idx + 1) rest
        (out.1.map fun l => r :: l, pre ++ [ScanEvent.classified p b] ++ out.2)
    else
      let out := scanFrom env threshold_db total on_progress (idx + 1) rest
      (out.1, pre ++ [ScanEvent.classified p b] ++ out.2)

/-- `scan_directory(root, threshold_db, on_progress)` from `scanner.py`. -/
noncomputable def scan_directory (env : String → FileInfo)
    (walk : List (String × List String)) (threshold_db : ℝ) (on_progress : Bool) :
    Except String (List SilentFileRecord) × List ScanEvent :=
  scanFrom env threshold_db (scanTotal walk) on_progress 1 (all_files walk)

/-- The record captured for a silent file whose `stat` call succeeded. -/
def mkRecord (env : String → FileInfo) (p : String) : SilentFileRecord :=
  { path := p, size_bytes := ((env p).size_bytes).getD 0,
    duration_seconds := get_duration env p }

/-- The event trace of a scan that completes without an uncaught error,
starting at candidate index `idx`. -/
noncomputable def expectedTraceFrom (env : String → FileInfo) (threshold_db : ℝ)
    (total : Nat) (on_progress : Bool) : Nat → List String → List ScanEvent
  | _, [] => []
  | idx, p :: rest =>
    (if on_progress then [ScanEvent.progressCall idx total p] else []) ++
      ScanEvent.classified p (is_silent env p threshold_db) ::
        expectedTraceFrom env threshold_db total on_progress (idx + 1) rest

/-- The `(index, total, path)` argument triples of the progress calls, one
per candidate, with `index` counting from `idx`. -/
def progressList (total : Nat) : Nat → List String → List (Nat × Nat × String)
  | _, [] => []
  | idx, p :: rest => (idx, total, p) :: progressList total (idx + 1) rest

/-- The argument triple of a progress event, if it is one. -/
def progressOf : ScanEvent → Option (Nat × Nat × String)
  | ScanEvent.progressCall i t p => some (i, t, p)
  | ScanEvent.classified _ _ => none

/-- A trace in which every progress call is preceded by the classification
of the same path — the ordering the specification asserts. -/
def progressAfterClassification (tr : List ScanEvent) : Prop :=
  ∀ i idx total p, tr.getD i (ScanEvent.classified "" false) =
      ScanEvent.progressCall idx total p →
    ∃ j, j < i ∧ ∃ b, tr.getD j (ScanEvent.progressCall 0 0 "") =
      ScanEvent.classified p b

/-! ### Report serialization (`report.py` and the external `json` library) -/

/-- JSON trees, the values handled by `json.dump` / `json.load`. -/
inductive JValue where
  | jnull
  | jbool (b : Bool)
  | jnum (q : ℚ)
  | jstr (s : String)
  | jarr (elems : List JValue)
  | jobj (fields : List (String × JValue))

/-- Content of a file as seen through `json.load`: either text that parses
to the JSON tree `v`, or text that is not valid JSON.  The external `json`
library is modelled as exact on the values this program writes:
`json.dump` of a tree produces text that `json.load` parses back to the
same tree. -/
inductive FileData where
  | jsonData (v : JValue)
  | rawData (s : String)

/-- Failures raised by `read_report`.  `fileNotFound` carries the offending
path (the source raises `FileNotFoundError(f"Report file not found: ...")`
naming the path); `json.JSONDecodeError` carries a message and a position
in the document but not the path. -/
inductive ReadError where
  | fileNotFound (path : String)
  | jsonDecodeError
deriving DecidableEq, Repr

/-- The JSON tree of one silent-file dict, exactly the keys and key order
produced by the scanner and serialized by `json.dump`. -/
def recordToJson (r : SilentFileRecord) : JValue :=
  JValue.jobj
    [("path", JValue.jstr r.path),
     ("size_bytes", JValue.jnum r.size_bytes),
     ("duration_seconds",
       match r.duration_seconds with
       | none => JValue.jnull
       | some d => JValue.jnum d)]

/-- The JSON tree of one session dict from `group_by_session`. -/
def sessionToJson (g : SessionGroup) : JValue :=
  JValue.jobj
    [("session_path", JValue.jstr g.session_path),
     ("silent_file_count", JValue.jnum g.silent_file_count),
     ("silent_files", JValue.jarr (g.silent_files.map recordToJson))]

/-- The JSON tree of the report dict built by `build_report`. -/
def reportToJson (R : ScanReport) : JValue :=
  JValue.jobj
    [("scanned_at", JValue.jstr R.scanned_at),
     ("root_path", JValue.jstr R.root_path),
     ("threshold_db", JValue.jnum R.threshold_db),
     ("scan_duration_seconds", JValue.jnum R.scan_duration_seconds),
     ("total_files_scanned", JValue.jnum R.total_files_scanned),
     ("total_silent_files", JValue.jnum R.total_silent_files),
     ("total_silent_size_bytes", JValue.jnum R.total_silent_size_bytes),
     ("sessions", JValue.jarr (R.sessions.map sessionToJson))]

/-- A JSON number that is a non-negative integer, read back as `Nat`. -/
def qToNat (q : ℚ) : Option Nat :=
  if q.den = 1 ∧ 0 ≤ q.num then some q.num.toNat else none

/-- Decode every element of a JSON array, failing if any element fails. -/
def decodeList {α : Type} (dec : JValue → Option α) : List JValue → Option (List α)
  | [] => some []
  | v :: vs =>
    match dec v, decodeList dec vs with
    | some a, some as => some (a :: as)
    | _, _ => none

/-- Schema decoder for one silent-file record.  The source has no such
step (`read_report` returns the raw parsed value); this decoder only
serves to state that the written JSON determines the record
field-for-field. -/
def jsonToRecord : JValue → Option SilentFileRecord
  | JValue.jobj [("path", JValue.jstr p), ("size_bytes", JValue.jnum sz),
      ("duration_seconds", d)] =>
    (match qToNat sz, d with
     | some n, JValue.jnull =>
       some { path := p, size_bytes := n, duration_seconds := none }
     | some n, JValue.jnum q =>
       some { path := p, size_bytes := n, duration_seconds := some q }
     | _, _ => none)
  | _ => none

/-- Schema decoder for one session group; see `jsonToRecord`. -/
def jsonToSession : JValue → Option SessionGroup
  | JValue.jobj [("session_path", JValue.jstr sp),
      ("silent_file_count", JValue.jnum c), ("silent_files", JValue.jarr fs)] =>
    (match qToNat c, decodeList jsonToRecord fs with
     | some n, some rs =>
       some { session_path := sp, silent_file_count := n, silent_files := rs }
     | _, _ => none)
  | _ => none

/-- Schema decoder for a whole report; see `jsonToRecord`. -/
def jsonToReport : JValue → Option ScanReport
  | JValue.jobj [("scanned_at", JValue.jstr sa), ("root_path", JValue.jstr rp),
      ("threshold_db", JValue.jnum tdb), ("scan_duration_seconds", JValue.jnum sd),
      ("total_files_scanned", JValue.jnum tfs), ("total_silent_files", JValue.jnum tsf),
      ("total_silent_size_bytes", JValue.jnum tsb), ("sessions", JValue.jarr ss)] =>
    (match qToNat tfs, qToNat tsf, qToNat tsb, decodeList jsonToSession ss with
     | some a, some b, some c, some gs =>
       some { scanned_at := sa, root_path := rp, threshold_db := tdb,
              scan_duration_seconds := sd, total_files_scanned := a,
              total_silent_files := b, total_silent_size_bytes := c, sessions := gs }
     | _, _, _, _ => none)
  | _ => none

/-- `write_report(report, output_path)` from `report.py`: stores the JSON
rendering of the report dict at `output_path` (the `mkdir(parents=True)`
of the parent directory has no observable effect in this model). -/
def write_report (report : ScanReport) (output_path : String)
    (fs : String → Option FileData) : String → Option FileData :=
  fun p => if p = output_path then some (FileData.jsonData (reportToJson report)) else fs p

/-- `read_report(report_path)` from `report.py`: `FileNotFoundError` when
the path does not exist, `json.JSONDecodeError` when the content is not
valid JSON, and otherwise the parsed JSON value as-is — the source performs
no validation against the report schema. -/
def read_report (report_path : String) (fs : String → Option FileData) :
    Except ReadError JValue :=
  match fs report_path with
  | none => Except.error (ReadError.fileNotFound report_path)
  | some (FileData.rawData _) => Except.error ReadError.jsonDecodeError
  | some (FileData.jsonData v) => Except.ok v

/-! ### Concrete probe environments and walks used as test inputs -/

/-- A directory holding a single candidate `d/u.wav` that fails to decode
(e.g. a truncated header); `stat` would succeed. -/
def envUnreadable : String → FileInfo :=
  fun _ => { decoded := none, size_bytes := some 7, infoDuration := none }

/-- The walk of a directory `d` containing only `u.wav`. -/
def walkU : List (String × List String) := [("d", ["u.wav"])]

/-- Every path decodes to a valid zero-frame file (shape `(0, channels)`):
readable, but with no samples at all. -/
def envZeroFrame : String → FileInfo :=
  fun _ => { decoded := some [], size_bytes := some 4000, infoDuration := some 0 }

/-- Every path decodes to a two-frame stereo file whose samples are all
zero. -/
def envAllZero : String → FileInfo :=
  fun _ => { decoded := some [[0, 0], [0, 0]], size_bytes := some 10, infoDuration := some 2 }

/-- `d/a.wav` is digital silence (one zero sample); every other path holds
one full-scale sample, far above any reasonable threshold. -/
def envSilentLoud : String → FileInfo :=
  fun p =>
    if p = "d/a.wav" then { decoded := some [[0]], size_bytes := some 100, infoDuration := some 1 }
    else { decoded := some [[1]], size_bytes := some 200, infoDuration := some 2 }

/-- The walk of a directory `d` containing `a.wav` and `b.wav`. -/
def walkAB : List (String × List String) := [("d", ["a.wav", "b.wav"])]

/-- The walk of a directory `d` containing only `a.wav`. -/
def walkA : List (String × List String) := [("d", ["a.wav"])]

/-- `d/s.wav` decodes as silent but its `stat` call raises (e.g. the file
vanished between the directory walk and the size lookup). -/
def envStatFail : String → FileInfo :=
  fun p =>
    if p = "d/s.wav" then { decoded := some [[0]], size_bytes := none, infoDuration := some 1 }
    else { decoded := none, size_bytes := none, infoDuration := none }

/-- The walk of a directory `d` containing only `s.wav`. -/
def walkS : List (String × List String) := [("d", ["s.wav"])]

/-! ### Helper facts about `group_by_session` -/

/-- First value stored under a key in an association list (`[]` if absent). -/
def bucket : List (String × List SilentFileRecord) → String → List SilentFileRecord
  | [], _ => []
  | (k, fs) :: rest, key => if k = key then fs else bucket rest key

/-- The keys of an association list. -/
def keysOf (acc : List (String × List SilentFileRecord)) : List String :=
  acc.map fun kv => kv.1

theorem insertRecord_cons_pos (k₀ : String) (fs : List SilentFileRecord)
    (rest : List (String × List SilentFileRecord)) (r : SilentFileRecord) :
    insertRecord ((k₀, fs) :: rest) k₀ r = (k₀, fs ++ [r]) :: rest := by
  simp [insertRecord]

theorem insertRecord_cons_neg (k₀ : String) (fs : List SilentFileRecord)
    (rest : List (String × List SilentFileRecord)) (key : String) (r : SilentFileRecord)
    (h : ¬ k₀ = key) :
    insertRecord ((k₀, fs) :: rest) key r = (k₀, fs) :: insertRecord rest key r := by
  simp [insertRecord, h]

theorem bucket_insertRecord (acc : List (String × List SilentFileRecord)) (key : String)
    (r : SilentFileRecord) (k : String) :
    bucket (insertRecord acc key r) k =
      if key = k then bucket acc k ++ [r] else bucket acc k := by
  induction acc with
  | nil => by_cases h : key = k <;> simp [insertRecord, bucket, h]
  | cons kv rest ih =>
    obtain ⟨k₀, fs⟩ := kv
    by_cases h₀ : k₀ = key
    · subst h₀
      rw [insertRecord_cons_pos]
      by_cases hk : k₀ = k
      · subst hk; simp [bucket]
      · simp [bucket, hk]
    · rw [insertRecord_cons_neg _ _ _ _ _ h₀]
      by_cases hk : k₀ = k
      · subst hk
        have hky : ¬ key = k₀ := fun h => h₀ h.symm
        simp [bucket, hky]
      · simp [bucket, hk, ih]

theorem mem_keysOf_insertRecord {acc : List (String × List SilentFileRecord)}
    {key : String} {r : SilentFileRecord} {k : String} :
    k ∈ keysOf (insertRecord acc key r) ↔ k ∈ keysOf acc ∨ k = key := by
  induction acc with
  | nil => simp [insertRecord, keysOf, eq_comm]
  | cons kv rest ih =>
    obtain ⟨k₀, fs⟩ := kv
    by_cases h₀ : k₀ = key
    · subst h₀
      rw [insertRecord_cons_pos]
      simp only [keysOf, List.map_cons, List.mem_cons]
      tauto
    · rw [insertRecord_cons_neg _ _ _ _ _ h₀]
      simp only [keysOf, List.map_cons, List.mem_cons] at ih ⊢
      rw [ih]
      tauto

theorem nodup_keysOf_insertRecord (acc : List (String × List SilentFileRecord))
    (key : String) (r : SilentFileRecord) (h : (keysOf acc).Nodup) :
    (keysOf (insertRecord acc key r)).Nodup := by
  induction acc with
  | nil => simp [insertRecord, keysOf]
  | cons kv rest ih =>
    obtain ⟨k₀, fs⟩ := kv
    simp only [keysOf, List.map_cons, List.nodup_cons] at h
    obtain ⟨hnot, hrest⟩ := h
    by_cases h₀ : k₀ = key
    · subst h₀
      rw [insertRecord_cons_pos]
      simp only [keysOf, List.map_cons, List.nodup_cons]
      exact ⟨hnot, hrest⟩
    · rw [insertRecord_cons_neg _ _ _ _ _ h₀]
      simp only [keysOf, List.map_cons, List.nodup_cons]
      refine ⟨?_, ih hrest⟩
      intro hmem
      rcases mem_keysOf_insertRecord.1 hmem with h1 | h1
      · exact hnot h1
      · exact h₀ h1

theorem bucket_eq_of_mem {acc : List (String × List SilentFileRecord)}
    {k : String} {fs : List SilentFileRecord}
    (hmem : (k, fs) ∈ acc) (hnd : (keysOf acc).Nodup) : fs = bucket acc k := by
  induction acc with
  | nil => cases hmem
  | cons kv rest ih =>
    obtain ⟨k₀, fs₀⟩ := kv
    simp only [keysOf, List.map_cons, List.nodup_cons] at hnd
    obtain ⟨hnot, hrest⟩ := hnd
    rcases List.mem_cons.1 hmem with h | h
    · rw [Prod.mk.injEq] at h
      obtain ⟨rfl, rfl⟩ := h
      simp [bucket]
    · have hk : ¬ k₀ = k := by
        intro he
        subst he
        exact hnot (List.mem_map.2 ⟨(k₀, fs), h, rfl⟩)
      simp only [bucket, if_neg hk]
      exact ih h hrest

theorem bucket_eq_nil_of_not_mem {acc : List (String × List SilentFileRecord)}
    {k : String} (h : k ∉ keysOf acc) : bucket acc k = [] := by
  induction acc with
  | nil => rfl
  | cons kv rest ih =>
    obtain ⟨k₀, fs₀⟩ := kv
    simp only [keysOf, List.map_cons, List.mem_cons] at h
    push_neg at h
    have hk : ¬ k₀ = k := fun he => h.1 he.symm
    simp only [bucket, if_neg hk]
    exact ih h.2

theorem nonnil_of_mem_insertRecord {acc : List (String × List SilentFileRecord)}
    {key : String} {r : SilentFileRecord}
    (h : ∀ kv ∈ acc, kv.2 ≠ ([] : List SilentFileRecord)) :
    ∀ kv ∈ insertRecord acc key r, kv.2 ≠ ([] : List SilentFileRecord) := by
  induction acc with
  | nil => simp [insertRecord]
  | cons kv₀ rest ih =>
    obtain ⟨k₀, fs₀⟩ := kv₀
    intro kv hkv
    by_cases h₀ : k₀ = key
    · subst h₀
      rw [insertRecord_cons_pos] at hkv
      rcases List.mem_cons.1 hkv with h1 | h1
      · subst h1; simp
      · exact h kv (List.mem_cons_of_mem _ h1)
    · rw [insertRecord_cons_neg _ _ _ _ _ h₀] at hkv
      rcases List.mem_cons.1 hkv with h1 | h1
      · subst h1; exact h _ (List.mem_cons_self _ _)
      · exact ih (fun kv' hkv' => h kv' (List.mem_cons_of_mem _ hkv')) kv h1

theorem bucket_foldl (files : List SilentFileRecord)
    (acc : List (String × List SilentFileRecord)) (k : String) :
    bucket (files.foldl (fun acc f => insertRecord acc (parentDir f.path) f) acc) k =
      bucket acc k ++ files.filter (fun f => decide (parentDir f.path = k)) := by
  induction files generalizing acc with
  | nil => simp
  | cons f rest ih =>
    rw [List.foldl_cons, ih, List.filter_cons]
    by_cases hf : parentDir f.path = k
    · rw [bucket_insertRecord, if_pos hf]
      simp [hf]
    · rw [bucket_insertRecord, if_neg hf]
      simp [hf]

theorem nodup_keysOf_foldl (files : List SilentFileRecord)
    (acc : List (String × List SilentFileRecord)) (h : (keysOf acc).Nodup) :
    (keysOf (files.foldl (fun acc f => insertRecord acc (parentDir f.path) f) acc)).Nodup := by
  induction files generalizing acc with
  | nil => exact h
  | cons f rest ih =>
    rw [List.foldl_cons]
    exact ih _ (nodup_keysOf_insertRecord _ _ _ h)

theorem nonnil_of_mem_foldl (files : List SilentFileRecord)
    (acc : List (String × List SilentFileRecord))
    (h : ∀ kv ∈ acc, kv.2 ≠ ([] : List SilentFileRecord)) :
    ∀ kv ∈ files.foldl (fun acc f => insertRecord acc (parentDir f.path) f) acc,
      kv.2 ≠ ([] : List SilentFileRecord) := by
  induction files generalizing acc with
  | nil => exact h
  | cons f rest ih =>
    rw [List.foldl_cons]
    exact ih _ (nonnil_of_mem_insertRecord h)

theorem mem_keysOf_foldl (files : List SilentFileRecord)
    (acc : List (String × List SilentFileRecord)) (k : String) :
    k ∈ keysOf (files.foldl (fun acc f => insertRecord acc (parentDir f.path) f) acc) ↔
      k ∈ keysOf acc ∨ ∃ f ∈ files, parentDir f.path = k := by
  induction files generalizing acc with
  | nil => simp
  | cons f rest ih =>
    rw [List.foldl_cons, ih, mem_keysOf_insertRecord]
    constructor
    · rintro ((h | h) | ⟨f', hf', h⟩)
      · exact Or.inl h
      · exact Or.inr ⟨f, List.mem_cons_self _ _, h.symm⟩
      · exact Or.inr ⟨f', List.mem_cons_of_mem _ hf', h⟩
    · rintro (h | ⟨f', hf', h⟩)
      · exact Or.inl (Or.inl h)
      · rcases List.mem_cons.1 hf' with h1 | h1
        · subst h1; exact Or.inl (Or.inr h.symm)
        · exact Or.inr ⟨f', h1, h⟩

theorem nodup_keysOf_collectSessions (files : List SilentFileRecord) :
    (keysOf (collectSessions files)).Nodup :=
  nodup_keysOf_foldl files [] (by simp [keysOf])

theorem bucket_collectSessions (files : List SilentFileRecord) (k : String) :
    bucket (collectSessions files) k =
      files.filter (fun f => decide (parentDir f.path = k)) := by
  rw [collectSessions, bucket_foldl]
  rfl

theorem mem_keysOf_collectSessions (files : List SilentFileRecord) (k : String) :
    k ∈ keysOf (collectSessions files) ↔ ∃ f ∈ files, parentDir f.path = k := by
  rw [collectSessions, mem_keysOf_foldl]
  simp [keysOf]

/-- The pairs appearing in the sorted session list are exactly the pairs of
the accumulated dict. -/
theorem mem_sorted_iff_mem_collect (files : List SilentFileRecord)
    (kv : String × List SilentFileRecord) :
    kv ∈ List.insertionSort pairLe (collectSessions files) ↔ kv ∈ collectSessions files :=
  (List.perm_insertionSort pairLe (collectSessions files)).mem_iff

/-- Every group emitted by `group_by_session` carries exactly the input
records whose parent directory is the group's key, in input order, and its
stored count is the length of that list. -/
theorem group_by_session_char (files : List SilentFileRecord) (root : String) :
    ∀ g ∈ group_by_session files root,
      g.silent_files = files.filter (fun f => decide (parentDir f.path = g.session_path)) ∧
      g.silent_file_count = g.silent_files.length := by
  intro g hg
  rw [group_by_session, List.mem_map] at hg
  obtain ⟨kv, hkv, rfl⟩ := hg
  rw [mem_sorted_iff_mem_collect] at hkv
  obtain ⟨k, fs⟩ := kv
  have hb := bucket_eq_of_mem hkv (nodup_keysOf_collectSessions files)
  rw [bucket_collectSessions] at hb
  exact ⟨hb, rfl⟩

theorem keysOf_sorted_nodup (files : List SilentFileRecord) :
    ((List.insertionSort pairLe (collectSessions files)).map (fun kv => kv.1)).Nodup := by
  have hperm := (List.perm_insertionSort pairLe (collectSessions files)).map fun kv => kv.1
  exact hperm.nodup_iff.2 (nodup_keysOf_collectSessions files)

/-- The session keys come out strictly ascending in the string order. -/
theorem group_by_session_sorted (files : List SilentFileRecord) (root : String) :
    ((group_by_session files root).map (fun g => g.session_path)).Sorted (· < ·) := by
  rw [group_by_session, List.map_map]
  have hsorted : (List.insertionSort pairLe (collectSessions files)).Sorted pairLe :=
    List.sorted_insertionSort pairLe (collectSessions files)
  have hle : ((List.insertionSort pairLe (collectSessions files)).map
      (fun kv => kv.1)).Sorted (· ≤ ·) := by
    rw [List.Sorted, List.pairwise_map]
    exact hsorted
  have hpair : ((List.insertionSort pairLe (collectSessions files)).map
      (fun kv => kv.1)).Sorted (· < ·) := by
    rw [List.Sorted] at hle ⊢
    have hne : ((List.insertionSort pairLe (collectSessions files)).map
        (fun kv => kv.1)).Pairwise (· ≠ ·) :=
      keysOf_sorted_nodup files
    exact (hle.and hne).imp fun h => lt_of_le_of_ne h.1 h.2
  exact hpair

theorem group_by_session_keys (files : List SilentFileRecord) (root : String) (k : String) :
    k ∈ (group_by_session files root).map (fun g => g.session_path) ↔
      ∃ f ∈ files, parentDir f.path = k := by
  rw [group_by_session, List.map_map]
  rw [← mem_keysOf_collectSessions]
  constructor
  · intro h
    rw [List.mem_map] at h
    obtain ⟨kv, hkv, rfl⟩ := h
    rw [mem_sorted_iff_mem_collect] at hkv
    exact List.mem_map.2 ⟨kv, hkv, rfl⟩
  · intro h
    rw [keysOf, List.mem_map] at h
    obtain ⟨kv, hkv, rfl⟩ := h
    exact List.mem_map.2 ⟨kv, (mem_sorted_iff_mem_collect files kv).2 hkv, rfl⟩

/-- The records of all groups together are a permutation of the input. -/
theorem flatMap_insertRecord_perm (acc : List (String × List SilentFileRecord))
    (key : String) (r : SilentFileRecord) :
    ((insertRecord acc key r).flatMap fun kv => kv.2) ~
      (acc.flatMap fun kv => kv.2) ++ [r] := by
  induction acc with
  | nil => simp [insertRecord]
  | cons kv rest ih =>
    obtain ⟨k₀, fs⟩ := kv
    by_cases h₀ : k₀ = key
    · subst h₀
      rw [insertRecord_cons_pos]
      simp only [List.flatMap_cons]
      calc (fs ++ [r]) ++ rest.flatMap (fun kv => kv.2)
          ~ fs ++ ([r] ++ rest.flatMap fun kv => kv.2) := by
            rw [List.append_assoc]
        _ ~ fs ++ ((rest.flatMap fun kv => kv.2) ++ [r]) :=
            List.Perm.append_left fs List.perm_append_comm
        _ ~ (fs ++ rest.flatMap fun kv => kv.2) ++ [r] := by
            rw [List.append_assoc]
    · rw [insertRecord_cons_neg _ _ _ _ _ h₀]
      simp only [List.flatMap_cons]
      calc fs ++ ((insertRecord rest key r).flatMap fun kv => kv.2)
          ~ fs ++ ((rest.flatMap fun kv => kv.2) ++ [r]) := List.Perm.append_left fs ih
        _ ~ (fs ++ rest.flatMap fun kv => kv.2) ++ [r] := by rw [List.append_assoc]

theorem flatMap_foldl_perm (files : List SilentFileRecord)
    (acc : List (String × List SilentFileRecord)) :
    ((files.foldl (fun acc f => insertRecord acc (parentDir f.path) f) acc).flatMap
        fun kv => kv.2) ~
      (acc.flatMap fun kv => kv.2) ++ files := by
  induction files generalizing acc with
  | nil => simp
  | cons f rest ih =>
    rw [List.foldl_cons]
    calc ((rest.foldl (fun acc f => insertRecord acc (parentDir f.path) f)
            (insertRecord acc (parentDir f.path) f)).flatMap fun kv => kv.2)
        ~ ((insertRecord acc (parentDir f.path) f).flatMap fun kv => kv.2) ++ rest := ih _
      _ ~ ((acc.flatMap fun kv => kv.2) ++ [f]) ++ rest :=
          List.Perm.append_right rest (flatMap_insertRecord_perm acc _ f)
      _ ~ (acc.flatMap fun kv => kv.2) ++ (f :: rest) := by
          rw [List.append_assoc]; rfl

theorem group_by_session_flatMap_perm (files : List SilentFileRecord) (root : String) :
    ((group_by_session files root).flatMap fun g => g.silent_files) ~ files := by
  rw [group_by_session]
  have h1 : (((List.insertionSort pairLe (collectSessions files)).map fun kv =>
      ({ session_path := kv.1, silent_file_count := kv.2.length,
         silent_files := kv.2 } : SessionGroup)).flatMap fun g => g.silent_files) =
      (List.insertionSort pairLe (collectSessions files)).flatMap fun kv => kv.2 := by
    rw [List.flatMap_map]
  rw [h1]
  calc ((List.insertionSort pairLe (collectSessions files)).flatMap fun kv => kv.2)
      ~ ((collectSessions files).flatMap fun kv => kv.2) :=
        (List.perm_insertionSort pairLe (collectSessions files)).flatMap_right _
    _ ~ ([].flatMap (fun kv : String × List SilentFileRecord => kv.2)) ++ files :=
        flatMap_foldl_perm files []
    _ ~ files := by simp

/-! ### Round-trip facts about the serialized report -/

theorem qToNat_natCast (n : Nat) : qToNat (n : ℚ) = some n := by
  simp [qToNat]

theorem jsonToRecord_recordToJson (r : SilentFileRecord) :
    jsonToRecord (recordToJson r) = some r := by
  obtain ⟨p, n, d⟩ := r
  cases d <;> simp [recordToJson, jsonToRecord, qToNat_natCast]

theorem decodeList_map {α : Type} (dec : JValue → Option α) (f : α → JValue)
    (h : ∀ a, dec (f a) = some a) (xs : List α) :
    decodeList dec (xs.map f) = some xs := by
  induction xs with
  | nil => rfl
  | cons x xs ih => simp [decodeList, h, ih]

theorem jsonToSession_sessionToJson (g : SessionGroup) :
    jsonToSession (sessionToJson g) = some g := by
  obtain ⟨sp, c, fs⟩ := g
  simp [sessionToJson, jsonToSession, qToNat_natCast,
    decodeList_map jsonToRecord recordToJson jsonToRecord_recordToJson]

theorem jsonToReport_reportToJson (R : ScanReport) :
    jsonToReport (reportToJson R) = some R := by
  obtain ⟨sa, rp, tdb, sd, a, b, c, ss⟩ := R
  simp [reportToJson, jsonToReport, qToNat_natCast,
    decodeList_map jsonToSession sessionToJson jsonToSession_sessionToJson]

/-! ### Claim theorems (report side) -/

/-- C2: for every input sequence of silent-file records, `group_by_session`
emits exactly one `SessionGroup` per distinct parent-directory key (the
keys listed are strictly sorted, hence pairwise distinct, and a key
appears iff some input record has that parent directory), the groups are
sorted ascending by `session_path` in the lexicographic string order, each
group's `silent_files` is the input filtered to its key (hence preserves
the input's relative order), each group's `silent_file_count` equals the
length of its `silent_files`, and re-running on the same input yields the
same output (the function is pure). -/
theorem claim_C2_grouping (files : List SilentFileRecord) (root : String) :
    ((group_by_session files root).map (fun g => g.session_path)).Sorted (· < ·)
    ∧ (∀ k, k ∈ (group_by_session files root).map (fun g => g.session_path) ↔
        ∃ f ∈ files, parentDir f.path = k)
    ∧ (∀ g ∈ group_by_session files root,
        g.silent_files = files.filter (fun f => decide (parentDir f.path = g.session_path)) ∧
        g.silent_file_count = g.silent_files.length)
    ∧ group_by_session files root = group_by_session files root :=
  ⟨group_by_session_sorted files root,
   fun k => group_by_session_keys files root k,
   group_by_session_char files root,
   rfl⟩

/-- C3: in every report produced by `build_report`, `total_silent_files`
equals the sum of `silent_file_count` over the sessions and equals the
length of the flat silent-file list (both the input list and the
concatenation of the sessions' lists), and `total_silent_size_bytes`
equals the sum of `size_bytes` over all records reachable through
`sessions`. -/
theorem claim_C3_aggregates (root now : String) (files : List SilentFileRecord)
    (total : Nat) (tdb dur : ℚ) :
    (build_report root files total tdb dur now).total_silent_files
        = (((build_report root files total tdb dur now).sessions.map
            fun g => g.silent_file_count).sum)
    ∧ (build_report root files total tdb dur now).total_silent_files
        = ((build_report root files total tdb dur now).sessions.flatMap
            fun g => g.silent_files).length
    ∧ (build_report root files total tdb dur now).total_silent_files = files.length
    ∧ (build_report root files total tdb dur now).total_silent_size_bytes
        = ((((build_report root files total tdb dur now).sessions.flatMap
            fun g => g.silent_files).map fun r => r.size_bytes).sum) := by
  have hperm := group_by_session_flatMap_perm files root
  have hsess : (build_report root files total tdb dur now).sessions
      = group_by_session files root := rfl
  refine ⟨?_, ?_, rfl, ?_⟩
  · show files.length = ((group_by_session files root).map fun g => g.silent_file_count).sum
    have hmap : ((group_by_session files root).map fun g => g.silent_file_count)
        = (group_by_session files root).map fun g => g.silent_files.length :=
      List.map_congr_left fun g hg => (group_by_session_char files root g hg).2
    rw [hmap]
    have hlen := hperm.length_eq
    rw [List.length_flatMap] at hlen
    exact hlen.symm
  · show files.length = ((group_by_session files root).flatMap fun g => g.silent_files).length
    exact hperm.length_eq.symm
  · show (files.map fun f => f.size_bytes).sum
        = ((((group_by_session files root).flatMap fun g => g.silent_files).map
            fun r => r.size_bytes).sum)
    exact ((hperm.map fun r => r.size_bytes).sum_eq).symm

/-- C4: writing a report produced by `build_report` with `write_report`
and reading the same path back with `read_report` succeeds and returns
exactly the JSON structure that was written, and that structure determines
the report field-for-field (the schema decoder recovers the report,
including the order of sessions and of each session's files). -/
theorem claim_C4_round_trip (fs : String → Option FileData) (path : String)
    (root now : String) (files : List SilentFileRecord) (total : Nat) (tdb dur : ℚ) :
    read_report path
        (write_report (build_report root files total tdb dur now) path fs)
      = Except.ok (reportToJson (build_report root files total tdb dur now))
    ∧ jsonToReport (reportToJson (build_report root files total tdb dur now))
      = some (build_report root files total tdb dur now) := by
  constructor
  · simp [read_report, write_report]
  · exact jsonToReport_reportToJson _

/-- A filesystem holding, at `"r.json"`, a file whose text is valid JSON
(`{}`) but does not match the report schema. -/
def fsMalformed : String → Option FileData :=
  fun p => if p = "r.json" then some (FileData.jsonData (JValue.jobj [])) else none

/-- C5 counterexample: `read_report` on a file that exists and whose
content is valid JSON but cannot be parsed into the report schema (here
the empty object `\x7b\x7d`, missing every required field) does **not**
fail: it returns the parsed value unchanged, although the schema decoder
rejects that value.  The claimed `MalformedReport` failure does not exist
in the code. -/
theorem claim_C5_counterexample :
    read_report "r.json" fsMalformed = Except.ok (JValue.jobj [])
    ∧ jsonToReport (JValue.jobj []) = none := by
  constructor
  · rfl
  · rfl

/-- C5 (amended): `read_report` fails with `FileNotFoundError` naming the
offending path when the path does not exist; when the file exists but its
content is not valid JSON it fails with a `json.JSONDecodeError` (which
does not name the path); when the content is valid JSON — whether or not
it matches the report schema — it returns the parsed structure exactly as
written. -/
theorem claim_C5_amended (fs : String → Option FileData) (path : String) :
    (fs path = none →
      read_report path fs = Except.error (ReadError.fileNotFound path))
    ∧ (∀ s, fs path = some (FileData.rawData s) →
      read_report path fs = Except.error ReadError.jsonDecodeError)
    ∧ (∀ v, fs path = some (FileData.jsonData v) →
      read_report path fs = Except.ok v) := by
  refine ⟨fun h => ?_, fun s h => ?_, fun v h => ?_⟩
  · simp [read_report, h]
  · simp [read_report, h]
  · simp [read_report, h]

/-- C5 amended, instantiated: a missing path yields `fileNotFound` naming
the path, and a file with invalid JSON yields the parse error. -/
theorem claim_C5_witness :
    read_report "absent.json" fsMalformed
        = Except.error (ReadError.fileNotFound "absent.json")
    ∧ read_report "bad.json" (fun _ => some (FileData.rawData "not json"))
        = Except.error ReadError.jsonDecodeError :=
  ⟨(claim_C5_amended fsMalformed "absent.json").1 rfl,
   (claim_C5_amended (fun _ => some (FileData.rawData "not json")) "bad.json").2.1
     "not json" rfl⟩

/-- C10: the output of `group_by_session` depends only on the record
sequence, not on the `root` argument it also accepts, and every record is
grouped under its full parent-directory path (never relativized to
`root`). -/
theorem claim_C10_root_independent (files : List SilentFileRecord) (r1 r2 : String) :
    group_by_session files r1 = group_by_session files r2
    ∧ ∀ g ∈ group_by_session files r1, ∀ f ∈ g.silent_files,
        parentDir f.path = g.session_path := by
  refine ⟨rfl, ?_⟩
  intro g hg f hf
  obtain ⟨hfs, _⟩ := group_by_session_char files r1 g hg
  rw [hfs] at hf
  exact of_decide_eq_true (List.mem_filter.1 hf).2

/-! ### Helper facts about the classifier and the scan loop -/

theorem db_to_amplitude_pos (db : ℝ) : 0 < db_to_amplitude db :=
  Real.rpow_pos_of_pos (by norm_num) _

theorem db_to_amplitude_neg60 : db_to_amplitude (-60) = 1 / 1000 := by
  have h2 : ((-60 : ℝ) / 20) = ((-3 : ℤ) : ℝ) := by norm_num
  rw [db_to_amplitude, h2]
  rw [show Real.rpow 10 ((-3 : ℤ) : ℝ) = (10 : ℝ) ^ ((-3 : ℤ) : ℝ) from rfl]
  rw [Real.rpow_intCast]
  norm_num

theorem is_silent_none (env : String → FileInfo) (p : String) (tdb : ℝ)
    (h : (env p).decoded = none) : is_silent env p tdb = false := by
  simp [is_silent, h]

theorem is_silent_maxNone (env : String → FileInfo) (p : String) (tdb : ℝ)
    (data : List (List ℚ)) (hdec : (env p).decoded = some data)
    (hmax : npMaxAbs data = none) : is_silent env p tdb = false := by
  simp [is_silent, hdec, hmax]

theorem is_silent_eq_of_peak (env : String → FileInfo) (p : String) (tdb : ℝ)
    (data : List (List ℚ)) (m : ℚ) (hdec : (env p).decoded = some data)
    (hmax : npMaxAbs data = some m) :
    is_silent env p tdb = if (m : ℝ) < db_to_amplitude tdb then true else false := by
  simp [is_silent, hdec, hmax]

theorem is_silent_true_of (env : String → FileInfo) (p : String) (tdb : ℝ)
    (data : List (List ℚ)) (m : ℚ) (hdec : (env p).decoded = some data)
    (hmax : npMaxAbs data = some m) (hlt : (m : ℝ) < db_to_amplitude tdb) :
    is_silent env p tdb = true := by
  rw [is_silent_eq_of_peak env p tdb data m hdec hmax, if_pos hlt]

theorem is_silent_false_of (env : String → FileInfo) (p : String) (tdb : ℝ)
    (data : List (List ℚ)) (m : ℚ) (hdec : (env p).decoded = some data)
    (hmax : npMaxAbs data = some m) (hge : ¬ (m : ℝ) < db_to_amplitude tdb) :
    is_silent env p tdb = false := by
  rw [is_silent_eq_of_peak env p tdb data m hdec hmax, if_neg hge]

theorem foldl_max_le (xs : List ℚ) :
    ∀ x : ℚ, x ≤ xs.foldl max x ∧ ∀ a ∈ xs, a ≤ xs.foldl max x := by
  induction xs with
  | nil => intro x; exact ⟨le_refl x, by simp⟩
  | cons y ys ih =>
    intro x
    constructor
    · exact le_trans (le_max_left x y) (ih (max x y)).1
    · intro a ha
      rcases List.mem_cons.1 ha with rfl | ha
      · exact le_trans (le_max_right x a) (ih (max x a)).1
      · exact (ih (max x y)).2 a ha

theorem foldl_max_mem (xs : List ℚ) :
    ∀ x : ℚ, xs.foldl max x = x ∨ xs.foldl max x ∈ xs := by
  induction xs with
  | nil => intro x; exact Or.inl rfl
  | cons y ys ih =>
    intro x
    rcases ih (max x y) with h | h
    · rcases max_choice x y with hm | hm
      · rw [List.foldl_cons, h, hm]; exact Or.inl rfl
      · rw [List.foldl_cons, h, hm]; exact Or.inr (List.mem_cons_self _ _)
    · rw [List.foldl_cons]
      exact Or.inr (List.mem_cons_of_mem _ h)

/-- A computed `npMaxAbs` value is the maximum absolute sample magnitude:
it is attained by a sample and bounds every sample from above. -/
theorem npMaxAbs_spec (data : List (List ℚ)) (m : ℚ) (h : npMaxAbs data = some m) :
    m ∈ (data.flatMap id).map (fun x => |x|) ∧ ∀ x ∈ data.flatMap id, |x| ≤ m := by
  rw [npMaxAbs] at h
  cases hl : (data.flatMap id).map (fun x => |x|) with
  | nil => rw [hl] at h; cases h
  | cons a as =>
    rw [hl] at h
    injection h with h
    subst h
    constructor
    · rcases foldl_max_mem as a with h1 | h1
      · rw [h1]; exact List.mem_cons_self _ _
      · exact List.mem_cons_of_mem _ h1
    · intro x hx
      have hmem : |x| ∈ (data.flatMap id).map (fun y => |y|) :=
        List.mem_map_of_mem _ hx
      rw [hl] at hmem
      rcases List.mem_cons.1 hmem with h2 | h2
      · rw [h2]; exact (foldl_max_le as a).1
      · exact (foldl_max_le as a).2 _ h2

/-- The scan loop on a list of candidates whose silent members can all be
statted: it returns the silent files, in traversal order, with their sizes
and duration outcomes, and emits the full event trace. -/
theorem scanFrom_ok (env : String → FileInfo) (tdb : ℝ) (total : Nat) (cb : Bool)
    (files : List String) (idx : Nat)
    (h : ∀ p ∈ files, is_silent env p tdb = true → ((env p).size_bytes).isSome) :
    scanFrom env tdb total cb idx files =
      (Except.ok ((files.filter fun p => is_silent env p tdb).map (mkRecord env)),
       expectedTraceFrom env tdb total cb idx files) := by
  induction files generalizing idx with
  | nil => rfl
  | cons p rest ih =>
    have hrest : ∀ q ∈ rest, is_silent env q tdb = true → ((env q).size_bytes).isSome :=
      fun q hq => h q (List.mem_cons_of_mem _ hq)
    by_cases hb : is_silent env p tdb = true
    · have hsome := h p (List.mem_cons_self _ _) hb
      obtain ⟨sz, hsz⟩ := Option.isSome_iff_exists.1 hsome
      have hrec : SilentFileRecord.mk p sz (get_duration env p) = mkRecord env p := by
        simp [mkRecord, hsz]
      simp [scanFrom, hb, hsz, ih _ hrest, expectedTraceFrom, List.filter_cons, hrec, Except.map]
    · rw [Bool.not_eq_true] at hb
      simp [scanFrom, hb, ih _ hrest, expectedTraceFrom, List.filter_cons]

/-- Whether a callback is supplied never changes the scan's return value,
even when the scan aborts on a `stat` failure. -/
theorem scanFrom_fst_cb_independent (env : String → FileInfo) (tdb : ℝ) (total : Nat)
    (files : List String) (idx : Nat) (cb1 cb2 : Bool) :
    (scanFrom env tdb total cb1 idx files).1 = (scanFrom env tdb total cb2 idx files).1 := by
  induction files generalizing idx with
  | nil => rfl
  | cons p rest ih =>
    by_cases hb : is_silent env p tdb = true
    · cases hsz : (env p).size_bytes with
      | none => simp [scanFrom, hb, hsz]
      | some sz => simp [scanFrom, hb, hsz, ih]
    · rw [Bool.not_eq_true] at hb
      simp [scanFrom, hb, ih]

theorem scan_directory_ok (env : String → FileInfo) (walk : List (String × List String))
    (tdb : ℝ) (cb : Bool)
    (h : ∀ p ∈ all_files walk, is_silent env p tdb = true → ((env p).size_bytes).isSome) :
    scan_directory env walk tdb cb =
      (Except.ok (((all_files walk).filter fun p => is_silent env p tdb).map (mkRecord env)),
       expectedTraceFrom env tdb (scanTotal walk) cb 1 (all_files walk)) :=
  scanFrom_ok env tdb (scanTotal walk) cb (all_files walk) 1 h

/-- With a callback supplied, the progress events of a completed trace are
exactly one call per candidate, carrying the running 1-based index, the
total, and the path. -/
theorem expectedTrace_progress (env : String → FileInfo) (tdb : ℝ) (total : Nat)
    (files : List String) (idx : Nat) :
    (expectedTraceFrom env tdb total true idx files).filterMap progressOf =
      progressList total idx files := by
  induction files generalizing idx with
  | nil => rfl
  | cons p rest ih => simp [expectedTraceFrom, progressList, progressOf, ih]

/-- With no callback supplied, the trace contains no progress events. -/
theorem expectedTrace_no_progress (env : String → FileInfo) (tdb : ℝ) (total : Nat)
    (files : List String) (idx : Nat) :
    (expectedTraceFrom env tdb total false idx files).filterMap progressOf = [] := by
  induction files generalizing idx with
  | nil => rfl
  | cons p rest ih => simp [expectedTraceFrom, progressOf, ih]

/-! ### Evaluations of the fixtures -/

theorem all_files_walkA : all_files walkA = ["d/a.wav"] := by rfl

theorem all_files_walkAB : all_files walkAB = ["d/a.wav", "d/b.wav"] := by rfl

theorem all_files_walkU : all_files walkU = ["d/u.wav"] := by rfl

theorem all_files_walkS : all_files walkS = ["d/s.wav"] := by rfl

theorem is_silent_SL_a : is_silent envSilentLoud "d/a.wav" (-60) = true := by
  apply is_silent_true_of envSilentLoud "d/a.wav" (-60) [[0]] 0 rfl (by decide)
  rw [db_to_amplitude_neg60]
  norm_num

theorem is_silent_SL_b : is_silent envSilentLoud "d/b.wav" (-60) = false := by
  apply is_silent_false_of envSilentLoud "d/b.wav" (-60) [[1]] 1 rfl (by decide)
  rw [db_to_amplitude_neg60]
  norm_num

theorem is_silent_SF_s : is_silent envStatFail "d/s.wav" (-60) = true := by
  apply is_silent_true_of envStatFail "d/s.wav" (-60) [[0]] 0 rfl (by decide)
  rw [db_to_amplitude_neg60]
  norm_num

theorem is_silent_allZero (p : String) (tdb : ℝ) : is_silent envAllZero p tdb = true := by
  apply is_silent_true_of envAllZero p tdb [[0, 0], [0, 0]] 0 rfl (by decide)
  rw [Rat.cast_zero]
  exact db_to_amplitude_pos tdb

theorem envSilentLoud_stat (q : String) : ((envSilentLoud q).size_bytes).isSome := by
  by_cases h : q = "d/a.wav" <;> simp [envSilentLoud, h]

/-! ### Claim theorems (scanner side) -/

/-- C1 counterexample: a decodable zero-frame file (`decoded = some []`)
is a readable file; the stipulated peak over its (empty) sample set is 0,
strictly below the always-positive amplitude threshold, yet `is_silent`
classifies it as not silent (`np.max` raises on the empty array and the
blanket `except` swallows the error), so the claimed iff fails at this
input. -/
theorem claim_C1_counterexample :
    (envZeroFrame "sessionA/take1.wav").decoded = some []
    ∧ is_silent envZeroFrame "sessionA/take1.wav" (-60) = false
    ∧ (0 : ℝ) < db_to_amplitude (-60) :=
  ⟨rfl, is_silent_maxNone envZeroFrame "sessionA/take1.wav" (-60) [] rfl rfl,
   db_to_amplitude_pos (-60)⟩

/-- C1 (amended): for every readable file with at least one sample the
classification is Silent iff the peak — the maximum absolute sample
magnitude across all channels and frames — is strictly below
`10^(thresholdDb/20)`; a file that fails to decode is classified
not-silent rather than propagating the failure, and a scan over any walk
containing it counts it in the candidate total, excludes it from the
silent list, and does not raise (provided the silent files' `stat` calls
succeed, see C9). -/
theorem claim_C1_amended (env : String → FileInfo) (tdb : ℝ) (p : String) :
    (∀ data m, (env p).decoded = some data → npMaxAbs data = some m →
      (m ∈ (data.flatMap id).map (fun x => |x|) ∧ ∀ x ∈ data.flatMap id, |x| ≤ m)
      ∧ (is_silent env p tdb = true ↔ (m : ℝ) < db_to_amplitude tdb))
    ∧ ((env p).decoded = none → is_silent env p tdb = false)
    ∧ (∀ walk cb, (env p).decoded = none → p ∈ all_files walk →
        (∀ q ∈ all_files walk, is_silent env q tdb = true → ((env q).size_bytes).isSome) →
        scanTotal walk = ((all_files walk).erase p).length + 1
        ∧ ∃ l, (scan_directory env walk tdb cb).1 = Except.ok l
            ∧ ∀ r ∈ l, r.path ≠ p) := by
  refine ⟨?_, is_silent_none env p tdb, ?_⟩
  · intro data m hdec hmax
    refine ⟨npMaxAbs_spec data m hmax, ?_⟩
    rw [is_silent_eq_of_peak env p tdb data m hdec hmax]
    by_cases hc : (m : ℝ) < db_to_amplitude tdb
    · simp [hc]
    · simp [hc]
  · intro walk cb hdec hmem hstat
    constructor
    · have h1 := List.length_erase_of_mem hmem
      have h2 := List.length_pos_of_mem hmem
      rw [scanTotal]
      omega
    · refine ⟨((all_files walk).filter fun q => is_silent env q tdb).map (mkRecord env),
        ?_, ?_⟩
      · rw [scan_directory_ok env walk tdb cb hstat]
      · intro r hr
        rw [List.mem_map] at hr
        obtain ⟨q, hq, rfl⟩ := hr
        rw [List.mem_filter] at hq
        intro hrp
        have hqp : q = p := hrp
        subst hqp
        rw [is_silent_none env q tdb hdec] at hq
        exact absurd hq.2 Bool.false_ne_true

/-- C1 amended, instantiated at the undecodable file `d/u.wav`: the scan
over its directory counts it, succeeds, and flags nothing with its path. -/
theorem claim_C1_witness :
    scanTotal walkU = ((all_files walkU).erase "d/u.wav").length + 1
    ∧ ∃ l, (scan_directory envUnreadable walkU (-60) false).1 = Except.ok l
        ∧ ∀ r ∈ l, r.path ≠ "d/u.wav" :=
  (claim_C1_amended envUnreadable (-60) "d/u.wav").2.2 walkU false rfl
    (by rw [all_files_walkU]; exact List.mem_singleton.2 rfl)
    (fun q _ _ => rfl)

/-- C6 counterexample: two scans that disagree on the total candidate
count (2 vs 1 candidates) return equal values, so the total candidate
count cannot be part of `scan_directory`'s result; the source returns only
the silent-file list. -/
theorem claim_C6_counterexample :
    (scan_directory envSilentLoud walkAB (-60) false).1
      = (scan_directory envSilentLoud walkA (-60) false).1
    ∧ scanTotal walkAB ≠ scanTotal walkA := by
  constructor
  · rw [scan_directory_ok envSilentLoud walkAB (-60) false (fun q _ _ => envSilentLoud_stat q),
      scan_directory_ok envSilentLoud walkA (-60) false (fun q _ _ => envSilentLoud_stat q)]
    rw [all_files_walkAB, all_files_walkA]
    simp [List.filter_cons, is_silent_SL_a, is_silent_SL_b]
  · decide

/-- C6 (amended): `scan_directory` returns the full silent-record list
(possibly empty) as its only result; the total candidate count is computed
internally and handed to the progress callback but is not part of the
return value. -/
theorem claim_C6_amended (env : String → FileInfo) (walk : List (String × List String))
    (tdb : ℝ) (cb : Bool)
    (h : ∀ p ∈ all_files walk, is_silent env p tdb = true → ((env p).size_bytes).isSome) :
    (scan_directory env walk tdb cb).1
      = Except.ok (((all_files walk).filter fun p => is_silent env p tdb).map (mkRecord env))
    ∧ ((scan_directory env walk tdb true).2).filterMap progressOf
      = progressList (scanTotal walk) 1 (all_files walk) := by
  constructor
  · rw [scan_directory_ok env walk tdb cb h]
  · rw [scan_directory_ok env walk tdb true h]
    exact expectedTrace_progress env tdb (scanTotal walk) (all_files walk) 1

/-- C6 amended, instantiated at a one-candidate directory. -/
theorem claim_C6_witness :
    (scan_directory envSilentLoud walkA (-60) false).1
      = Except.ok (((all_files walkA).filter
          fun p => is_silent envSilentLoud p (-60)).map (mkRecord envSilentLoud))
    ∧ ((scan_directory envSilentLoud walkA (-60) true).2).filterMap progressOf
      = progressList (scanTotal walkA) 1 (all_files walkA) :=
  claim_C6_amended envSilentLoud walkA (-60) false (fun q _ _ => envSilentLoud_stat q)

/-- C7 counterexample: the event trace of a scan over one silent candidate
opens with the progress call, before the classification event for that
path, so the progress callback is not invoked after the candidate's
classification decision as claimed. -/
theorem claim_C7_counterexample :
    (scan_directory envSilentLoud walkA (-60) true).2
      = [ScanEvent.progressCall 1 1 "d/a.wav", ScanEvent.classified "d/a.wav" true]
    ∧ ¬ progressAfterClassification
        [ScanEvent.progressCall 1 1 "d/a.wav", ScanEvent.classified "d/a.wav" true] := by
  constructor
  · rw [scan_directory_ok envSilentLoud walkA (-60) true (fun q _ _ => envSilentLoud_stat q)]
    rw [show scanTotal walkA = 1 from rfl, all_files_walkA]
    simp [expectedTraceFrom, is_silent_SL_a]
  · intro hP
    obtain ⟨j, hj, b, hb⟩ := hP 0 1 1 "d/a.wav" rfl
    omega

/-- C7 (amended): when a callback is supplied it is invoked exactly once
per candidate — immediately before that candidate's classification
decision — receiving the 1-based index, the total candidate count, and
the path; its presence changes neither the scan's return value nor the
order of results, and without a callback no progress event occurs. -/
theorem claim_C7_amended (env : String → FileInfo) (walk : List (String × List String))
    (tdb : ℝ)
    (h : ∀ p ∈ all_files walk, is_silent env p tdb = true → ((env p).size_bytes).isSome) :
    (scan_directory env walk tdb true).1 = (scan_directory env walk tdb false).1
    ∧ (scan_directory env walk tdb true).2
        = expectedTraceFrom env tdb (scanTotal walk) true 1 (all_files walk)
    ∧ ((scan_directory env walk tdb true).2).filterMap progressOf
        = progressList (scanTotal walk) 1 (all_files walk)
    ∧ ((scan_directory env walk tdb false).2).filterMap progressOf = [] := by
  refine ⟨scanFrom_fst_cb_independent env tdb (scanTotal walk) (all_files walk) 1 true false,
    ?_, ?_, ?_⟩
  · rw [scan_directory_ok env walk tdb true h]
  · rw [scan_directory_ok env walk tdb true h]
    exact expectedTrace_progress env tdb (scanTotal walk) (all_files walk) 1
  · rw [scan_directory_ok env walk tdb false h]
    exact expectedTrace_no_progress env tdb (scanTotal walk) (all_files walk) 1

/-- C7 amended, instantiated at a two-candidate directory. -/
theorem claim_C7_witness :
    (scan_directory envSilentLoud walkAB (-60) true).1
      = (scan_directory envSilentLoud walkAB (-60) false).1
    ∧ (scan_directory envSilentLoud walkAB (-60) true).2
        = expectedTraceFrom envSilentLoud (-60) (scanTotal walkAB) true 1 (all_files walkAB)
    ∧ ((scan_directory envSilentLoud walkAB (-60) true).2).filterMap progressOf
        = progressList (scanTotal walkAB) 1 (all_files walkAB)
    ∧ ((scan_directory envSilentLoud walkAB (-60) false).2).filterMap progressOf = [] :=
  claim_C7_amended envSilentLoud walkAB (-60) (fun q _ _ => envSilentLoud_stat q)

/-- C8, the code evaluated at the failing input: for every threshold the
zero-frame decodable file is classified not silent — `np.max` raises on
the empty sample array and the blanket `except` turns the readable file
into a non-flagged outcome — although the amplitude threshold is strictly
positive, so the stipulated peak 0 lies below it.  (The other half of the
claim does hold: a decodable file whose samples are all zero is classified
Silent for every threshold.) -/
theorem claim_C8_zero_frame (tdb : ℝ) :
    is_silent envZeroFrame "z.wav" tdb = false
    ∧ (0 : ℝ) < db_to_amplitude tdb
    ∧ is_silent envAllZero "a0.wav" tdb = true :=
  ⟨is_silent_maxNone envZeroFrame "z.wav" tdb [] rfl rfl,
   db_to_amplitude_pos tdb,
   is_silent_allZero "a0.wav" tdb⟩

/-- C9 counterexample: a candidate that decodes as silent but whose
`stat` call raises makes the whole scan fail — `file_path.stat()` sits
outside any `try`, so this single-file failure is not absorbed. -/
theorem claim_C9_counterexample :
    (scan_directory envStatFail walkS (-60) false).1 = Except.error "d/s.wav" := by
  have hsz : (envStatFail "d/s.wav").size_bytes = none := rfl
  rw [scan_directory, show scanTotal walkS = 1 from rfl, all_files_walkS]
  simp [scanFrom, is_silent_SF_s, hsz]

/-- C9 (amended): decode failures and duration/metadata failures affecting
a single candidate are absorbed into per-file outcomes — an undecodable
file is simply not flagged, and a duration failure still yields a record
(with the duration absent); but a failure to `stat` a silent file is not
absorbed: when every silent candidate can be statted the scan returns
normally, otherwise it raises (see the counterexample). -/
theorem claim_C9_amended (env : String → FileInfo) (walk : List (String × List String))
    (tdb : ℝ) (cb : Bool)
    (h : ∀ p ∈ all_files walk, is_silent env p tdb = true → ((env p).size_bytes).isSome) :
    (∃ l, (scan_directory env walk tdb cb).1 = Except.ok l
        ∧ ∀ r ∈ l, r.duration_seconds = (env r.path).infoDuration)
    ∧ ∀ p, (env p).decoded = none → is_silent env p tdb = false := by
  constructor
  · refine ⟨((all_files walk).filter fun q => is_silent env q tdb).map (mkRecord env),
      ?_, ?_⟩
    · rw [scan_directory_ok env walk tdb cb h]
    · intro r hr
      rw [List.mem_map] at hr
      obtain ⟨q, hq, rfl⟩ := hr
      rfl
  · intro p hp
    exact is_silent_none env p tdb hp

/-- C9 amended, instantiated at the undecodable file's directory. -/
theorem claim_C9_witness :
    (∃ l, (scan_directory envUnreadable walkU (-60) true).1 = Except.ok l
        ∧ ∀ r ∈ l, r.duration_seconds = (envUnreadable r.path).infoDuration)
    ∧ ∀ p, (envUnreadable p).decoded = none → is_silent envUnreadable p (-60) = false :=
  claim_C9_amended envUnreadable walkU (-60) true (fun _ _ _ => rfl)

end SilentScan
